import Mathlib

/-!
Shallow embedding of the import/export core of the address-manager repository
(`lib/excel.ts`, the current variant, together with the record type from
`lib/types.ts`).  Spreadsheet cell values are modelled as a tagged union, a
decoded row as an association list from column names to cell values, and the
external spreadsheet codec as the identity on row objects (the spec treats the
codec as a black box that turns bytes into row objects and back).  JavaScript
numbers are idealized as exact rationals: every `ℚ` is finite, so the
`Number.isFinite` guards of the source are always true, and `NaN`/`Infinity`
outcomes of `parseInt`/`parseFloat` are modelled as `none`.
-/

/-- A spreadsheet cell value / untyped JS value reaching the utilities:
a tagged union of string, number, boolean, `null` and `undefined`. -/
inductive CellValue where
  | vStr (s : String)
  | vNum (q : ℚ)
  | vBool (b : Bool)
  | vNull
  | vUndefined
deriving DecidableEq, Repr

/-- A decoded spreadsheet row: an object mapping column-header names to cell
values (`Record<string, unknown>` in the source).  JS object keys are unique;
lookup takes the first binding. -/
abbrev Row : Type := List (String × CellValue)

/-- `c` matches the JS regular-expression class `\s` (ECMAScript WhiteSpace and
line terminators), the class used by `normalizeNumberLike`, `normalizeAddressKey`
and `String.prototype.trim`. -/
def jsIsWs (c : Char) : Bool :=
  c = ' ' || c = '\t' || c = '\n' || c = '\r' ||
  c.toNat = 0x0b || c.toNat = 0x0c || c.toNat = 0xa0 || c.toNat = 0x1680 ||
  (0x2000 ≤ c.toNat && c.toNat ≤ 0x200a) ||
  c.toNat = 0x2028 || c.toNat = 0x2029 || c.toNat = 0x202f ||
  c.toNat = 0x205f || c.toNat = 0x3000 || c.toNat = 0xfeff

/-- JS `String.prototype.trim`: drop leading and trailing whitespace. -/
def jsTrim (s : String) : String :=
  String.mk (((s.data.dropWhile jsIsWs).reverse.dropWhile jsIsWs).reverse)

/-- JS `String.prototype.toLowerCase`, restricted to the ASCII range (on which
`Char.toLower` agrees with JS; non-ASCII letters are left unchanged).
Stated as a structural list map (extensionally `String.map Char.toLower`). -/
def jsToLower (s : String) : String := String.mk (s.data.map Char.toLower)

/-- `String.prototype.normalize('NFKC')`.  NFKC is the identity on the ASCII
range; the embedding restricts cell text to characters on which NFKC acts as
the identity, so it is modelled as the identity function. -/
def nfkc (s : String) : String := s

/-- Numeric value of a list of decimal digit characters. -/
def digitsToNat (l : List Char) : ℕ :=
  l.foldl (fun acc c => acc * 10 + (c.toNat - 48)) 0

/-- Decimal rendering of a rational: models JS number-to-string conversion on
the finite-decimal rationals produced by this program (JS doubles that print in
plain decimal notation).  Rationals without a finite decimal expansion of at
most 40 digits (unreachable from JS doubles) are truncated at 40 digits. -/
def ratToString (q : ℚ) : String :=
  let sgn := if q < 0 then "-" else ""
  let aq := |q|
  let k := (((List.range 41).filter (fun k => (aq * (10:ℚ)^k).den = 1)).head?).getD 40
  let n := (aq * (10:ℚ)^k).num.toNat
  if k = 0 then sgn ++ Nat.repr n
  else
    let ip := n / 10^k
    let fp := Nat.repr (n % 10^k)
    sgn ++ Nat.repr ip ++ "." ++ String.mk (List.replicate (k - fp.length) '0') ++ fp

/-- JS abstract `ToString` on the modelled values (`String(v)` in the source). -/
def cellToString : CellValue → String
  | .vStr s => s
  | .vNum q => ratToString q
  | .vBool b => if b then "true" else "false"
  | .vNull => "null"
  | .vUndefined => "undefined"

/-- Property access `row[name]` on a row object; an absent key reads as
`undefined`. -/
def rowGet : Row → String → Option CellValue
  | [], _ => none
  | (k, v) :: rest, n => if k = n then some v else rowGet rest n

/-- `row[name]` as a JS value (`undefined` when the key is absent). -/
def jsGet (row : Row) (n : String) : CellValue :=
  (rowGet row n).getD .vUndefined

/-- The JS "nullish" test: `v === null || v === undefined`. -/
def isNullish : CellValue → Bool
  | .vNull => true
  | .vUndefined => true
  | _ => false

/-- The JS nullish-coalescing operator `a ?? b`. -/
def jsCoalesce (a b : CellValue) : CellValue :=
  if isNullish a then b else a

/-- JS string-or-default `s || d` for a string `s` (the empty string is the
only falsy string). -/
def strOr (s d : String) : String := if s = "" then d else s

/-- JS `x || d` where `x` is an optional string field (`undefined` and `""`
are both falsy). -/
def optStrOr (x : Option String) (d : String) : String :=
  match x with
  | some s => strOr s d
  | none => d

/-- JS truthiness of an optional boolean field (`undefined` and `false` are
falsy). -/
def optBoolTruthy : Option Bool → Bool
  | some true => true
  | _ => false

/-! ### Field name mapping (`FIELD_MAPPINGS` in the source) -/

namespace FieldMappings

def address : List String := ["Adresse", "Address"]
def addressCode : List String := ["adrcd-subcd", "ID"]
def region : List String := ["Region"]
def ano : List String := ["ANO", "Provider"]
def status : List String := ["Status"]
def homes : List String := ["Anzahl der Homes", "Homes"]
def contractStatus : List String :=
  ["Vertrag auf Adresse vorhanden oder L1-Angebot gesendet", "Contract"]
def price : List String := ["Preis Standardprodukt (€)", "Price"]
def provisionCategory : List String := ["Provisions-Kategorie"]
def buildingCompany : List String := ["Baufirma"]
def kgNumber : List String := ["KG Nummer"]
def completionPlanned : List String := ["Fertigstellung Bau (aktueller Plan)"]
def completionDone : List String := ["Fertigstellung Bau erfolgt"]
def d2dStart : List String := ["D2D-Vertrieb Start"]
def d2dEnd : List String := ["D2D-Vertrieb Ende"]
def outdoorFee : List String := ["Outdoor-Pauschale vorhanden"]
def notes : List String := ["Notes"]

end FieldMappings

/-- `getFieldValue(row, fieldNames)`: return `String(v)` for the first alias
whose value is neither `undefined` nor `null` and whose string form is
non-blank after trimming; otherwise the empty string. -/
def getFieldValue (row : Row) (fieldNames : List String) : String :=
  match fieldNames with
  | [] => ""
  | name :: rest =>
    let v := jsGet row name
    if isNullish v = false ∧ jsTrim (cellToString v) ≠ "" then cellToString v
    else getFieldValue row rest

/-! ### Numeric normalization and coercion -/

/-- One dot of the global regex `/\.(?=\d{3}(\D|$))/` matches here: the next
three characters are digits and the fourth (if any) is a non-digit. -/
def thousandsAt : List Char → Bool
  | d1 :: d2 :: d3 :: rest =>
    d1.isDigit && d2.isDigit && d3.isDigit &&
      (match rest with
       | [] => true
       | c :: _ => !c.isDigit)
  | _ => false

/-- `.replace(/\.(?=\d{3}(\D|$))/g, '')`: delete every dot that is followed by
exactly three digits and then a non-digit or the end of the string (the
lookahead consumes nothing). -/
def stripThousands : List Char → List Char
  | [] => []
  | c :: rest =>
    if c = '.' ∧ thousandsAt rest then stripThousands rest
    else c :: stripThousands rest

/-- `.replace(',', '.')` with a string pattern: replace only the first comma. -/
def replaceFirstComma : List Char → List Char
  | [] => []
  | c :: rest => if c = ',' then '.' :: rest else c :: replaceFirstComma rest

/-- `normalizeNumberLike(value)`: `String(value ?? '').trim()`, then remove all
whitespace, remove thousands-separator dots, and convert the first comma to a
dot. -/
def normalizeNumberLike (value : CellValue) : String :=
  let s := jsTrim (cellToString (jsCoalesce value (.vStr "")))
  String.mk (replaceFirstComma (stripThousands (s.data.filter (fun c => !jsIsWs c))))

/-- JS `parseInt(s, 10)`: skip whitespace, optional sign, then the longest
prefix of decimal digits; no digits means `NaN`, modelled as `none`.  Integer
arithmetic is exact (double rounding of huge digit strings is not modelled). -/
def jsParseInt (s : String) : Option ℤ :=
  let l := s.data.dropWhile jsIsWs
  let p : ℤ × List Char :=
    match l with
    | '+' :: t => (1, t)
    | '-' :: t => (-1, t)
    | _ => (1, l)
  let ds := p.2.takeWhile Char.isDigit
  if ds.isEmpty then none else some (p.1 * (digitsToNat ds : ℤ))

/-- Exponent part of a JS float literal: optional sign then digits; an
exponent without digits contributes nothing (longest valid prefix rule). -/
def readExp (l : List Char) : ℤ :=
  let p : ℤ × List Char :=
    match l with
    | '+' :: t => (1, t)
    | '-' :: t => (-1, t)
    | _ => (1, l)
  let ds := p.2.takeWhile Char.isDigit
  if ds.isEmpty then 0 else p.1 * (digitsToNat ds : ℤ)

/-- JS `parseFloat(s)`: longest decimal-literal prefix, exact over `ℚ`.
The parsed value `sign · digits(ip ++ fp) · 10^(e - |fp|)` is assembled with
integer arithmetic and one `Rat.divInt` so that it reduces in the kernel.
`none` models the non-finite outcomes (`NaN`, and the `Infinity` literal),
which the callers map to their fallback through the `Number.isFinite` guard. -/
def jsParseFloat (s : String) : Option ℚ :=
  let l := s.data.dropWhile jsIsWs
  let p : ℤ × List Char :=
    match l with
    | '+' :: t => (1, t)
    | '-' :: t => (-1, t)
    | _ => (1, l)
  if List.isPrefixOf "Infinity".data p.2 then none
  else
    let ip := p.2.takeWhile Char.isDigit
    let l2 := p.2.drop ip.length
    let fr : List Char × List Char :=
      match l2 with
      | '.' :: t => (t.takeWhile Char.isDigit, t.drop (t.takeWhile Char.isDigit).length)
      | _ => ([], l2)
    if ip.isEmpty ∧ fr.1.isEmpty then none
    else
      let e : ℤ :=
        match fr.2 with
        | 'e' :: t => readExp t
        | 'E' :: t => readExp t
        | _ => 0
      let mantissa : ℤ := p.1 * (digitsToNat (ip ++ fr.1) : ℤ)
      let exp : ℤ := e - fr.1.length
      if 0 ≤ exp then some (Rat.divInt (mantissa * ((10 ^ exp.toNat : ℕ) : ℤ)) 1)
      else some (Rat.divInt mantissa ((10 ^ (-exp).toNat : ℕ) : ℤ))

/-- JS `Math.trunc` on the rational model: round toward zero. -/
def jsTruncQ (q : ℚ) : ℚ :=
  if 0 ≤ q then (⌊q⌋ : ℚ) else (⌈q⌉ : ℚ)

/-- `safeParseInt(value, fallback)`, cache-free semantics (the memoizing cache
is modelled separately; see `safeParseIntCached`).  A native number (always
finite in the rational model) is truncated; otherwise the normalized string is
parsed, empty or unparsable input yielding the fallback. -/
def safeParseInt (value : CellValue) (fallback : ℚ) : ℚ :=
  match value with
  | .vNum q => jsTruncQ q
  | _ =>
    let key := normalizeNumberLike value
    if key = "" then fallback
    else
      match jsParseInt key with
      | some n => (n : ℚ)
      | none => fallback

/-- `safeParseFloat(value, fallback)`, cache-free semantics. -/
def safeParseFloat (value : CellValue) (fallback : ℚ) : ℚ :=
  match value with
  | .vNum q => q
  | _ =>
    let key := normalizeNumberLike value
    if key = "" then fallback
    else
      match jsParseFloat key with
      | some q => q
      | none => fallback

/-- `safeParseBoolean(value)`: native booleans pass through; otherwise
`String(value ?? '').trim().toLowerCase()` is matched against the truthy
tokens. -/
def safeParseBoolean (value : CellValue) : Bool :=
  match value with
  | .vBool b => b
  | _ =>
    let s := jsToLower (jsTrim (cellToString (jsCoalesce value (.vStr ""))))
    s = "yes" || s = "true" || s = "1" || s = "ja" || s = "y" || s = "x"

/-! ### The memoizing parse caches (`parseIntCache`, `parseFloatCache`) -/

/-- The module-level `Map<string, number>` caches, modelled as association
lists (insertion at the front; lookup finds the most recent entry). -/
def ParseCache : Type := List (String × ℚ)

/-- `Map.prototype.get`. -/
def cacheGet : ParseCache → String → Option ℚ
  | [], _ => none
  | (k, n) :: rest, key => if k = key then some n else cacheGet rest key

/-- `safeParseInt` with its memoizing cache made explicit: returns the result
together with the updated cache.  Mirrors the source line by line: the number
branch and the empty-key branch do not consult the cache; a hit returns the
cached value; a miss parses, stores the outcome (which is the fallback when
parsing fails) and returns it. -/
def safeParseIntCached (cache : ParseCache) (value : CellValue) (fallback : ℚ) :
    ℚ × ParseCache :=
  match value with
  | .vNum q => (jsTruncQ q, cache)
  | _ =>
    let key := normalizeNumberLike value
    if key = "" then (fallback, cache)
    else
      match cacheGet cache key with
      | some hit => (hit, cache)
      | none =>
        let out :=
          match jsParseInt key with
          | some n => (n : ℚ)
          | none => fallback
        (out, (key, out) :: cache)

/-- `safeParseFloat` with its memoizing cache made explicit. -/
def safeParseFloatCached (cache : ParseCache) (value : CellValue) (fallback : ℚ) :
    ℚ × ParseCache :=
  match value with
  | .vNum q => (q, cache)
  | _ =>
    let key := normalizeNumberLike value
    if key = "" then (fallback, cache)
    else
      match cacheGet cache key with
      | some hit => (hit, cache)
      | none =>
        let out :=
          match jsParseFloat key with
          | some q => q
          | none => fallback
        (out, (key, out) :: cache)

/-- Run a sequence of `safeParseInt` calls through the shared cache, collecting
the returned values. -/
def runIntCalls (cache : ParseCache) (fallback : ℚ) : List CellValue → List ℚ
  | [] => []
  | v :: rest =>
    let r := safeParseIntCached cache v fallback
    r.1 :: runIntCalls r.2 fallback rest

/-- Run a sequence of `safeParseFloat` calls through the shared cache. -/
def runFloatCalls (cache : ParseCache) (fallback : ℚ) : List CellValue → List ℚ
  | [] => []
  | v :: rest =>
    let r := safeParseFloatCached cache v fallback
    r.1 :: runFloatCalls r.2 fallback rest

/-- As `runIntCalls`, but each call carries its own fallback argument (the
general form quantified over by the cache-transparency claim). -/
def runIntCallsFB (cache : ParseCache) : List (CellValue × ℚ) → List ℚ
  | [] => []
  | (v, fb) :: rest =>
    let r := safeParseIntCached cache v fb
    r.1 :: runIntCallsFB r.2 rest

/-! ### Duplicate-detection key (`normalizeAddressKey`) -/

/-- `.replace(/\s+/g, ' ')`: collapse each maximal whitespace run to a single
space.  The flag records whether the previous character was part of a run. -/
def collapseWs : List Char → Bool → List Char
  | [], _ => []
  | c :: rest, prevWs =>
    if jsIsWs c then
      if prevWs then collapseWs rest true else ' ' :: collapseWs rest true
    else c :: collapseWs rest false

/-- The punctuation class `[.,;:()]` stripped by the dedup key. -/
def isStrippedPunct (c : Char) : Bool :=
  c = '.' || c = ',' || c = ';' || c = ':' || c = '(' || c = ')'

/-- `normalizeAddressKey(s)`: NFKC-normalize, lowercase, collapse whitespace,
strip `.,;:()`, trim. -/
def normalizeAddressKey (s : String) : String :=
  jsTrim (String.mk ((collapseWs (jsToLower (nfkc s)).data false).filter
    (fun c => !isStrippedPunct c)))

/-! ### The record type (`Address` from `lib/types.ts`) -/

/-- The canonical address record.  Optional TypeScript fields (`field?:`) are
`Option`-valued; `homes`, `contractStatus` and `price` are JS numbers,
idealized as rationals. -/
structure Address where
  id : ℕ
  addressCode : String
  address : String
  region : String
  ano : Option String
  status : Option String
  homes : ℚ
  contractStatus : ℚ
  price : ℚ
  provisionCategory : Option String
  buildingCompany : Option String
  kgNumber : Option String
  completionPlanned : Option String
  completionDone : Option Bool
  d2dStart : Option String
  d2dEnd : Option String
  outdoorFee : Option String
  notes : String
  imported : Option Bool
  customerMet : Option Bool
  appointmentSet : Option Bool
  contractSigned : Option Bool
  objectAvailable : Option Bool
deriving DecidableEq, Repr

attribute [ext] Address

/-- `createAddress(row, id)`: build a record from a decoded row.  Fields the
TypeScript literal does not mention (the four customer-tracking flags) are
`undefined`, i.e. `none`; assigning a plain string to an optional field makes
it `some`. -/
def createAddress (row : Row) (id : ℕ) : Address :=
  let homesRaw := jsCoalesce (jsGet row "Anzahl der Homes") (jsGet row "Homes")
  let contractRaw :=
    jsCoalesce (jsGet row "Vertrag auf Adresse vorhanden oder L1-Angebot gesendet")
      (jsGet row "Contract")
  let priceRaw := jsCoalesce (jsGet row "Preis Standardprodukt (€)") (jsGet row "Price")
  let doneRaw := jsCoalesce (jsGet row "Fertigstellung Bau erfolgt") (.vBool false)
  { id := id
    addressCode := getFieldValue row FieldMappings.addressCode
    address := getFieldValue row FieldMappings.address
    region := getFieldValue row FieldMappings.region
    ano := some (getFieldValue row FieldMappings.ano)
    status := some (getFieldValue row FieldMappings.status)
    homes := safeParseInt homesRaw 0
    contractStatus := safeParseInt contractRaw 0
    price := safeParseFloat priceRaw 0
    provisionCategory := some (getFieldValue row FieldMappings.provisionCategory)
    buildingCompany := some (getFieldValue row FieldMappings.buildingCompany)
    kgNumber := some (getFieldValue row FieldMappings.kgNumber)
    completionPlanned := some (getFieldValue row FieldMappings.completionPlanned)
    completionDone := some (safeParseBoolean doneRaw)
    d2dStart := some (getFieldValue row FieldMappings.d2dStart)
    d2dEnd := some (getFieldValue row FieldMappings.d2dEnd)
    outdoorFee := some (getFieldValue row FieldMappings.outdoorFee)
    notes := getFieldValue row FieldMappings.notes
    imported := some true
    customerMet := none
    appointmentSet := none
    contractSigned := none
    objectAvailable := none }

/-! ### The import pipeline (`importExcelFiles`)

A `File` argument is modelled by what the black-box codec delivers for it:
either the codec throws (`decodeError`), or the workbook has no readable
worksheet, or it decodes to a list of rows (`sheet_to_json` output).  The
duplicate checker's two sets (pre-existing keys and current-batch keys) are
only ever queried through their union and only ever grown, so they are
embedded as one list seeded with the existing keys, batch keys consed on.
The cooperative chunk scheduling (`CHUNK_SIZE`, `setTimeout` yields) only
partitions the row loop and is embedded as the plain row-order loop; the
concurrently awaited per-file tasks are embedded in file order (the
deterministic cooperative schedule described by the spec). -/

/-- What the spreadsheet codec produces for one uploaded file. -/
inductive FileContent where
  | decodeError (msg : String)
  | noWorksheet
  | sheet (rows : List Row)
deriving DecidableEq, Repr

/-- Result shape of `importExcelFiles`. -/
structure ImportResult where
  newAddresses : List Address
  totalProcessed : ℕ
  duplicatesSkipped : ℕ
deriving DecidableEq, Repr

/-- The per-file row loop.  `idBase` is `baseId + fileIndex * 1_000_000`;
`keys` is the union of the duplicate checker's sets; `cnt` is
`fileAddresses.length`, the running accepted count of this file.  Returns the
accepted records, the file's duplicate count and the grown key set. -/
def processRows (idBase : ℕ) : List Row → List String → ℕ →
    List Address × ℕ × List String
  | [], keys, _ => ([], 0, keys)
  | row :: rest, keys, cnt =>
    let addressText := getFieldValue row FieldMappings.address
    if jsTrim addressText = "" then processRows idBase rest keys cnt
    else if normalizeAddressKey addressText ∈ keys then
      let r := processRows idBase rest keys cnt
      (r.1, r.2.1 + 1, r.2.2)
    else
      let a := createAddress row (idBase + cnt)
      let r := processRows idBase rest (normalizeAddressKey addressText :: keys) (cnt + 1)
      (a :: r.1, r.2.1, r.2.2)

/-- Fold over the uploaded files in file order.  A codec failure on any file
rejects the whole operation with the wrapping error message; a file without a
worksheet contributes nothing; a sheet runs the row loop, its processed count
being its total row count.  Returns accepted records, processed and duplicate
totals, and the final key set. -/
def processFiles (base : ℕ) : List FileContent → ℕ → List String →
    Except String (List Address × ℕ × ℕ × List String)
  | [], _, keys => .ok ([], 0, 0, keys)
  | .decodeError msg :: _, _, _ =>
    .error ("Failed to process Excel files: " ++ msg)
  | .noWorksheet :: rest, fileIndex, keys => processFiles base rest (fileIndex + 1) keys
  | .sheet rows :: rest, fileIndex, keys =>
    let r := processRows (base + fileIndex * 1000000) rows keys 0
    match processFiles base rest (fileIndex + 1) r.2.2 with
    | .error e => .error e
    | .ok (as, p, d, ks) => .ok (r.1 ++ as, rows.length + p, r.2.1 + d, ks)

/-- `importExcelFiles(files, existing)`.  `base` is the value of `Date.now()`
at the start of the call, made an explicit input. -/
def importExcelFiles (base : ℕ) (files : List FileContent) (existing : List Address) :
    Except String ImportResult :=
  let keys := existing.map (fun a => normalizeAddressKey (strOr a.address ""))
  match processFiles base files 0 keys with
  | .error e => .error e
  | .ok (as, p, d, _) => .ok ⟨as, p, d⟩

/-! ### The export writer (`exportCSVWeb`) -/

/-- The row-shape projection of one record: the ordered column-keyed object the
export writer hands to the codec.  The source writes `a.homes ?? 0` (and
likewise for `contractStatus` and `price`); these fields are required numbers,
so the nullish coalescing is the identity and the fields are emitted as-is. -/
def exportRow (a : Address) : Row :=
  [("adrcd-subcd", .vStr (strOr a.addressCode "")),
   ("Adresse", .vStr (strOr a.address "")),
   ("Region", .vStr (strOr a.region "")),
   ("ANO", .vStr (optStrOr a.ano "")),
   ("Status", .vStr (optStrOr a.status "")),
   ("Anzahl der Homes", .vNum a.homes),
   ("Vertrag auf Adresse vorhanden oder L1-Angebot gesendet", .vNum a.contractStatus),
   ("Preis Standardprodukt (€)", .vNum a.price),
   ("Provisions-Kategorie", .vStr (optStrOr a.provisionCategory "")),
   ("Baufirma", .vStr (optStrOr a.buildingCompany "")),
   ("KG Nummer", .vStr (optStrOr a.kgNumber "")),
   ("Fertigstellung Bau (aktueller Plan)", .vStr (optStrOr a.completionPlanned "")),
   ("Fertigstellung Bau erfolgt", .vStr (if optBoolTruthy a.completionDone then "Yes" else "")),
   ("D2D-Vertrieb Start", .vStr (optStrOr a.d2dStart "")),
   ("D2D-Vertrieb Ende", .vStr (optStrOr a.d2dEnd "")),
   ("Outdoor-Pauschale vorhanden", .vStr (optStrOr a.outdoorFee "")),
   ("Notes", .vStr (strOr a.notes ""))]

/-- `exportCSVWeb(addresses)`: throws on an empty collection, otherwise
produces the projected rows (the `data` array handed to the codec; the chunk
loop fills `data[i+j]` for every index, i.e. it is the per-record map).  The
codec serialization and the download mechanics are outside the model. -/
def exportCSVWeb (addresses : List Address) : Except String (List Row) :=
  if addresses.length = 0 then .error "No addresses to export"
  else .ok (addresses.map exportRow)

/-! ### Derived notions used by the verification statements -/

/-- The address text the import pipeline extracts from a row. -/
def rowAddressText (r : Row) : String := getFieldValue r FieldMappings.address

/-- A row whose extracted address text is non-blank after trimming. -/
def rowNonblank (r : Row) : Prop := jsTrim (rowAddressText r) ≠ ""

instance (r : Row) : Decidable (rowNonblank r) := by
  unfold rowNonblank; infer_instance

/-- The dedup key of a row. -/
def rowKey (r : Row) : String := normalizeAddressKey (rowAddressText r)

/-- The dedup key of a stored record. -/
def recordKey (a : Address) : String := normalizeAddressKey a.address

/-- The rows a file contributes to the row loop (none unless it decodes to a
worksheet). -/
def sheetRows : FileContent → List Row
  | .sheet rows => rows
  | _ => []

/-- The existing-collection dedup key of a record, exactly as the duplicate
checker computes it (`normalizeAddressKey(a.address || '')`). -/
def existingKey (a : Address) : String := normalizeAddressKey (strOr a.address "")

/-- An alias qualifies for the field mapper: its cell is present (neither
`undefined` nor `null`) and non-blank after trimming.  This is the
specification-side predicate the field-mapper claim is stated with. -/
def fieldAliasQualifies (row : Row) (n : String) : Bool :=
  !isNullish (jsGet row n) && !(jsTrim (cellToString (jsGet row n)) == "")

/-- Cache-free outcome `safeParseInt` produces for a normalized key and a
fallback. -/
def pureIntOut (key : String) (fb : ℚ) : ℚ :=
  match jsParseInt key with
  | some n => (n : ℚ)
  | none => fb

/-- Cache-free outcome `safeParseFloat` produces for a normalized key and a
fallback. -/
def pureFloatOut (key : String) (fb : ℚ) : ℚ :=
  match jsParseFloat key with
  | some q => q
  | none => fb

/-- Every entry of an integer-parse cache agrees with the cache-free outcome
for fallback `fb`. -/
def IntCacheFaithful (c : ParseCache) (fb : ℚ) : Prop :=
  ∀ k n, cacheGet c k = some n → n = pureIntOut k fb

/-- Every entry of a float-parse cache agrees with the cache-free outcome for
fallback `fb`. -/
def FloatCacheFaithful (c : ParseCache) (fb : ℚ) : Prop :=
  ∀ k n, cacheGet c k = some n → n = pureFloatOut k fb

/-- A text value that survives the export/import round trip: it is either
empty, or non-blank after trimming (a non-empty all-whitespace value is
exported verbatim but collapses to `""` on re-import). -/
def GoodText (s : String) : Prop := s = "" ∨ jsTrim s ≠ ""

instance (s : String) : Decidable (GoodText s) := by
  unfold GoodText; infer_instance

/-- An optional text field that survives the round trip: present, and its
value survives (`undefined` comes back as `some ""`). -/
def GoodOptText : Option String → Prop
  | some s => GoodText s
  | none => False

instance (x : Option String) : Decidable (GoodOptText x) := by
  cases x <;> simp [GoodOptText] <;> infer_instance

/-- A record whose exported row re-imports to the same field values
(identifier, provenance flag and customer-tracking flags aside): non-blank
address text, round-trippable text fields, present optional text fields,
integral `homes` and `contractStatus`, and a present completion flag. -/
def RoundTrippable (a : Address) : Prop :=
  jsTrim a.address ≠ "" ∧
  GoodText a.addressCode ∧ GoodText a.region ∧ GoodText a.notes ∧
  GoodOptText a.ano ∧ GoodOptText a.status ∧ GoodOptText a.provisionCategory ∧
  GoodOptText a.buildingCompany ∧ GoodOptText a.kgNumber ∧
  GoodOptText a.completionPlanned ∧ GoodOptText a.d2dStart ∧
  GoodOptText a.d2dEnd ∧ GoodOptText a.outdoorFee ∧
  a.homes.den = 1 ∧ a.contractStatus.den = 1 ∧
  a.completionDone.isSome = true

instance (a : Address) : Decidable (RoundTrippable a) := by
  unfold RoundTrippable; infer_instance

/-- What re-importing an exported record restores: every field of the original
except the identifier (freshly assigned), the provenance flag (set true) and
the four customer-tracking flags (absent from the canonical column layout, so
they come back unset). -/
def scrubForReimport (a : Address) (newId : ℕ) : Address :=
  { a with
    id := newId
    imported := some true
    customerMet := none
    appointmentSet := none
    contractSigned := none
    objectAvailable := none }

/-- The record list an export-then-import round trip produces: the originals
scrubbed, with consecutive identifiers starting at `idBase + k`. -/
def reimported (idBase : ℕ) : ℕ → List Address → List Address
  | _, [] => []
  | k, a :: rest => scrubForReimport a (idBase + k) :: reimported idBase (k + 1) rest

/-! ### Concrete inputs used by witnesses and counterexamples -/

/-- A record demonstrating the round-trip loss of the customer-tracking
fields: `customerMet` is set. -/
def rtCtrRecord : Address :=
  { id := 42, addressCode := "X1", address := "Hauptstr 1", region := "R",
    ano := some "A", status := some "S", homes := 3, contractStatus := 1,
    price := 7, provisionCategory := some "P", buildingCompany := some "B",
    kgNumber := some "K", completionPlanned := some "C", completionDone := some true,
    d2dStart := some "D1", d2dEnd := some "D2", outdoorFee := some "O",
    notes := "n", imported := some true, customerMet := some true,
    appointmentSet := none, contractSigned := none, objectAvailable := none }

/-- A single-column row with the given address text. -/
def addrRow (s : String) : Row := [("Adresse", .vStr s)]

/-- First import call of the identifier-collision counterexample: six rows
with distinct addresses. -/
def idClashRowsA : List Row :=
  [addrRow "A1", addrRow "A2", addrRow "A3", addrRow "A4", addrRow "A5", addrRow "A6"]

/-- Second import call of the identifier-collision counterexample: one row,
issued with a `Date.now()` base 5 ms after the first call's. -/
def idClashRowsB : List Row := [addrRow "B1"]

/-- The spec's numeric-coercion scenario row. -/
def scenarioNumericRow : Row :=
  [("Anzahl der Homes", .vStr "1.234"), ("Preis Standardprodukt (€)", .vStr "12,50")]

/-! ### Basic lemmas -/

theorem strOr_empty (s : String) : strOr s "" = s := by
  unfold strOr; split <;> simp_all

theorem jsTruncQ_intCast (n : ℤ) : jsTruncQ (n : ℚ) = n := by
  unfold jsTruncQ; split <;> simp

theorem jsTruncQ_den_one {q : ℚ} (h : q.den = 1) : jsTruncQ q = q := by
  obtain ⟨n, hn⟩ : ∃ n : ℤ, (n : ℚ) = q := ⟨q.num, Rat.coe_int_num_of_den_eq_one h⟩
  rw [← hn, jsTruncQ_intCast]

theorem safeParseInt_vStr (s : String) (fb : ℚ) :
    safeParseInt (.vStr s) fb =
      (if normalizeNumberLike (.vStr s) = "" then fb
       else
         match jsParseInt (normalizeNumberLike (.vStr s)) with
         | some n => (n : ℚ)
         | none => fb) := rfl

theorem safeParseFloat_vStr (s : String) (fb : ℚ) :
    safeParseFloat (.vStr s) fb =
      (if normalizeNumberLike (.vStr s) = "" then fb
       else
         match jsParseFloat (normalizeNumberLike (.vStr s)) with
         | some q => q
         | none => fb) := rfl

theorem safeParseInt_vStr_some (s : String) (n : ℤ)
    (hne : normalizeNumberLike (.vStr s) ≠ "")
    (h : jsParseInt (normalizeNumberLike (.vStr s)) = some n) (fb : ℚ) :
    safeParseInt (.vStr s) fb = (n : ℚ) := by
  rw [safeParseInt_vStr, if_neg hne, h]

theorem safeParseFloat_vStr_some (s : String) (q : ℚ)
    (hne : normalizeNumberLike (.vStr s) ≠ "")
    (h : jsParseFloat (normalizeNumberLike (.vStr s)) = some q) (fb : ℚ) :
    safeParseFloat (.vStr s) fb = q := by
  rw [safeParseFloat_vStr, if_neg hne, h]

/-! ### C10 -/

/-- C10: calling the export writer with an empty record collection throws the
error `No addresses to export`; no row data is produced. -/
theorem c10_export_empty_throws :
    exportCSVWeb [] = Except.error "No addresses to export" := rfl

/-! ### C6 -/

/-- C6 counterexample: the claim says both coercion variants return every
finite native number unchanged, but the integer variant truncates:
`safeParseInt(2.5, 0)` is `2`, not `2.5`. -/
theorem c6_counterexample :
    safeParseInt (.vNum (5/2)) 0 = 2 ∧ (5/2 : ℚ) ≠ 2 := by
  constructor
  · show jsTruncQ (5/2) = 2
    unfold jsTruncQ
    norm_num
  · norm_num

/-- C6 (amended): on native numeric input the float variant returns the value
unchanged, while the integer variant returns `Math.trunc` of it — which equals
the input exactly when the input is an integer. -/
theorem c6_amended (q fb : ℚ) (n : ℤ) :
    safeParseFloat (.vNum q) fb = q ∧
    safeParseInt (.vNum q) fb = jsTruncQ q ∧
    safeParseInt (.vNum (n : ℚ)) fb = (n : ℚ) :=
  ⟨rfl, rfl, jsTruncQ_intCast n⟩

/-! ### C5 -/

/-- C5: the numeric coercers strip whitespace, drop thousands-separator dots
(a dot followed by exactly three digits and a non-digit or end), convert a
decimal comma to a dot, and parse, with the caller's fallback on empty or
unparsable input; `"1.234"` coerces to `homes = 1234` and `"12,50"` to
`price = 12.5`, and `null`/`undefined`/`""` coerce to the fallback (the
functions are total, so nothing throws). -/
theorem c5_numeric_coercion (fb : ℚ) :
    safeParseInt (.vStr "1.234") fb = 1234 ∧
    safeParseFloat (.vStr "12,50") fb = 25/2 ∧
    normalizeNumberLike (.vStr " 1.234 ") = "1234" ∧
    normalizeNumberLike (.vStr "12,50") = "12.50" ∧
    safeParseInt .vNull fb = fb ∧
    safeParseInt .vUndefined fb = fb ∧
    safeParseInt (.vStr "") fb = fb ∧
    safeParseFloat .vNull fb = fb ∧
    safeParseFloat .vUndefined fb = fb ∧
    safeParseFloat (.vStr "") fb = fb ∧
    (createAddress scenarioNumericRow 1).homes = 1234 ∧
    (createAddress scenarioNumericRow 1).price = 25/2 := by
  refine ⟨?_, ?_, by decide, by decide, rfl, rfl, rfl, rfl, rfl, rfl, by decide, ?_⟩
  · have h := safeParseInt_vStr_some "1.234" 1234 (by decide) (by decide) fb
    simpa using h
  · have h := safeParseFloat_vStr_some "12,50" (Rat.divInt 25 2) (by decide) (by decide) fb
    rw [h, Rat.divInt_eq_div]
    norm_num
  · have h : (createAddress scenarioNumericRow 1).price = Rat.divInt 25 2 := by decide
    rw [h, Rat.divInt_eq_div]
    norm_num

/-! ### C8 -/

theorem fieldAliasQualifies_iff (row : Row) (n : String) :
    fieldAliasQualifies row n = true ↔
      (isNullish (jsGet row n) = false ∧ jsTrim (cellToString (jsGet row n)) ≠ "") := by
  simp [fieldAliasQualifies, Bool.not_eq_true']

/-- C8: the field mapper returns the string form of the first alias whose cell
is present (neither `undefined` nor `null`) and non-blank after trimming, and
the empty string when no alias qualifies; being a total function, it never
throws. -/
theorem c8_field_mapper (row : Row) (names : List String) :
    getFieldValue row names =
      match names.find? (fieldAliasQualifies row) with
      | some n => cellToString (jsGet row n)
      | none => "" := by
  induction names with
  | nil => rfl
  | cons name rest ih =>
    by_cases h : fieldAliasQualifies row name
    · rw [List.find?_cons_of_pos _ h]
      show (if isNullish (jsGet row name) = false ∧ jsTrim (cellToString (jsGet row name)) ≠ ""
            then cellToString (jsGet row name) else getFieldValue row rest) = _
      rw [if_pos ((fieldAliasQualifies_iff row name).mp h)]
    · rw [List.find?_cons_of_neg _ (by simpa using h)]
      show (if isNullish (jsGet row name) = false ∧ jsTrim (cellToString (jsGet row name)) ≠ ""
            then cellToString (jsGet row name) else getFieldValue row rest) = _
      rw [if_neg (fun hc => h ((fieldAliasQualifies_iff row name).mpr hc))]
      exact ih

/-! ### C9 -/

theorem safeParseInt_nonNum (v : CellValue) (fb : ℚ) (hv : ∀ q, v ≠ .vNum q) :
    safeParseInt v fb =
      (if normalizeNumberLike v = "" then fb else pureIntOut (normalizeNumberLike v) fb) := by
  cases v with
  | vNum q => exact absurd rfl (hv q)
  | vStr s => rfl
  | vBool b => rfl
  | vNull => rfl
  | vUndefined => rfl

theorem safeParseFloat_nonNum (v : CellValue) (fb : ℚ) (hv : ∀ q, v ≠ .vNum q) :
    safeParseFloat v fb =
      (if normalizeNumberLike v = "" then fb else pureFloatOut (normalizeNumberLike v) fb) := by
  cases v with
  | vNum q => exact absurd rfl (hv q)
  | vStr s => rfl
  | vBool b => rfl
  | vNull => rfl
  | vUndefined => rfl

theorem safeParseIntCached_nonNum (c : ParseCache) (v : CellValue) (fb : ℚ)
    (hv : ∀ q, v ≠ .vNum q) :
    safeParseIntCached c v fb =
      (if _h : normalizeNumberLike v = "" then (fb, c)
       else
         match cacheGet c (normalizeNumberLike v) with
         | some hit => (hit, c)
         | none =>
           (pureIntOut (normalizeNumberLike v) fb,
             (normalizeNumberLike v, pureIntOut (normalizeNumberLike v) fb) :: c)) := by
  cases v with
  | vNum q => exact absurd rfl (hv q)
  | vStr s => simp only [safeParseIntCached, pureIntOut]; split <;> rfl
  | vBool b => simp only [safeParseIntCached, pureIntOut]; split <;> rfl
  | vNull => simp only [safeParseIntCached, pureIntOut]; split <;> rfl
  | vUndefined => simp only [safeParseIntCached, pureIntOut]; split <;> rfl

theorem safeParseFloatCached_nonNum (c : ParseCache) (v : CellValue) (fb : ℚ)
    (hv : ∀ q, v ≠ .vNum q) :
    safeParseFloatCached c v fb =
      (if _h : normalizeNumberLike v = "" then (fb, c)
       else
         match cacheGet c (normalizeNumberLike v) with
         | some hit => (hit, c)
         | none =>
           (pureFloatOut (normalizeNumberLike v) fb,
             (normalizeNumberLike v, pureFloatOut (normalizeNumberLike v) fb) :: c)) := by
  cases v with
  | vNum q => exact absurd rfl (hv q)
  | vStr s => simp only [safeParseFloatCached, pureFloatOut]; split <;> rfl
  | vBool b => simp only [safeParseFloatCached, pureFloatOut]; split <;> rfl
  | vNull => simp only [safeParseFloatCached, pureFloatOut]; split <;> rfl
  | vUndefined => simp only [safeParseFloatCached, pureFloatOut]; split <;> rfl

theorem safeParseIntCached_faithful (c : ParseCache) (v : CellValue) (fb : ℚ)
    (h : IntCacheFaithful c fb) :
    (safeParseIntCached c v fb).1 = safeParseInt v fb ∧
      IntCacheFaithful (safeParseIntCached c v fb).2 fb := by
  by_cases hv : ∃ q, v = .vNum q
  · obtain ⟨q, rfl⟩ := hv
    exact ⟨rfl, h⟩
  · push_neg at hv
    rw [safeParseIntCached_nonNum c v fb hv, safeParseInt_nonNum v fb hv]
    by_cases hk : normalizeNumberLike v = ""
    · simp [hk, h]
    · simp only [dif_neg hk, if_neg hk]
      cases hg : cacheGet c (normalizeNumberLike v) with
      | some hit => exact ⟨h _ _ hg, by simpa [hg] using h⟩
      | none =>
        refine ⟨rfl, fun k n hkn => ?_⟩
        simp only [cacheGet] at hkn
        split at hkn
        · rename_i heq
          subst heq
          exact (Option.some.injEq _ _ ▸ hkn).symm ▸ rfl
        · exact h _ _ hkn

theorem safeParseFloatCached_faithful (c : ParseCache) (v : CellValue) (fb : ℚ)
    (h : FloatCacheFaithful c fb) :
    (safeParseFloatCached c v fb).1 = safeParseFloat v fb ∧
      FloatCacheFaithful (safeParseFloatCached c v fb).2 fb := by
  by_cases hv : ∃ q, v = .vNum q
  · obtain ⟨q, rfl⟩ := hv
    exact ⟨rfl, h⟩
  · push_neg at hv
    rw [safeParseFloatCached_nonNum c v fb hv, safeParseFloat_nonNum v fb hv]
    by_cases hk : normalizeNumberLike v = ""
    · simp [hk, h]
    · simp only [dif_neg hk, if_neg hk]
      cases hg : cacheGet c (normalizeNumberLike v) with
      | some hit => exact ⟨h _ _ hg, by simpa [hg] using h⟩
      | none =>
        refine ⟨rfl, fun k n hkn => ?_⟩
        simp only [cacheGet] at hkn
        split at hkn
        · rename_i heq
          subst heq
          exact (Option.some.injEq _ _ ▸ hkn).symm ▸ rfl
        · exact h _ _ hkn

theorem runIntCalls_faithful (fb : ℚ) (calls : List CellValue) :
    ∀ c : ParseCache, IntCacheFaithful c fb →
      runIntCalls c fb calls = calls.map (fun v => safeParseInt v fb) := by
  induction calls with
  | nil => intro c _; rfl
  | cons v rest ih =>
    intro c hc
    obtain ⟨h1, h2⟩ := safeParseIntCached_faithful c v fb hc
    simp only [runIntCalls, List.map_cons, h1, ih _ h2]

theorem runFloatCalls_faithful (fb : ℚ) (calls : List CellValue) :
    ∀ c : ParseCache, FloatCacheFaithful c fb →
      runFloatCalls c fb calls = calls.map (fun v => safeParseFloat v fb) := by
  induction calls with
  | nil => intro c _; rfl
  | cons v rest ih =>
    intro c hc
    obtain ⟨h1, h2⟩ := safeParseFloatCached_faithful c v fb hc
    simp only [runFloatCalls, List.map_cons, h1, ih _ h2]

/-- C9 counterexample: the caches are keyed on the normalized input alone, but
an unparsable key stores the fallback of the call that populated it, so calls
with different fallback arguments are not transparent: after
`safeParseInt("abc", 1)`, the cached call `safeParseInt("abc", 2)` returns `1`
while the cache-free function returns `2`. -/
theorem c9_counterexample :
    runIntCallsFB [] [(.vStr "abc", 1), (.vStr "abc", 2)] = [1, 1] ∧
    [safeParseInt (.vStr "abc") 1, safeParseInt (.vStr "abc") 2] = [1, 2] ∧
    (1 : ℚ) ≠ 2 := by decide

/-- C9 (amended): the memoizing caches are semantically transparent for call
sequences that use one fixed fallback argument per variant (as every call site
in the importer does, passing 0): starting from a cleared cache, every cached
call returns exactly what the cache-free function returns.  With differing
fallbacks, a cached parse failure replays the first call's fallback (see the
counterexample). -/
theorem c9_amended (fb : ℚ) (calls : List CellValue) :
    runIntCalls [] fb calls = calls.map (fun v => safeParseInt v fb) ∧
    runFloatCalls [] fb calls = calls.map (fun v => safeParseFloat v fb) :=
  ⟨runIntCalls_faithful fb calls [] (fun k n h => by simp [cacheGet] at h),
   runFloatCalls_faithful fb calls [] (fun k n h => by simp [cacheGet] at h)⟩

/-! ### Structural lemmas about the per-file row loop -/

theorem createAddress_address (row : Row) (i : ℕ) :
    (createAddress row i).address = rowAddressText row := rfl

theorem createAddress_id (row : Row) (i : ℕ) : (createAddress row i).id = i := rfl

theorem recordKey_createAddress (row : Row) (i : ℕ) :
    recordKey (createAddress row i) = rowKey row := rfl

theorem processRows_nil (b : ℕ) (keys : List String) (cnt : ℕ) :
    processRows b [] keys cnt = ([], 0, keys) := rfl

theorem processRows_cons_blank {row : Row} (b : ℕ) (rest : List Row)
    (keys : List String) (cnt : ℕ) (hb : jsTrim (rowAddressText row) = "") :
    processRows b (row :: rest) keys cnt = processRows b rest keys cnt := by
  simp only [processRows]
  have hb2 : jsTrim (getFieldValue row FieldMappings.address) = "" := hb
  rw [if_pos hb2]

theorem processRows_cons_dup {row : Row} (b : ℕ) (rest : List Row)
    (keys : List String) (cnt : ℕ) (hb : jsTrim (rowAddressText row) ≠ "")
    (hk : rowKey row ∈ keys) :
    processRows b (row :: rest) keys cnt =
      ((processRows b rest keys cnt).1,
       (processRows b rest keys cnt).2.1 + 1,
       (processRows b rest keys cnt).2.2) := by
  simp only [processRows]
  have hb2 : ¬jsTrim (getFieldValue row FieldMappings.address) = "" := hb
  have hk2 : normalizeAddressKey (getFieldValue row FieldMappings.address) ∈ keys := hk
  rw [if_neg hb2, if_pos hk2]

theorem processRows_cons_new {row : Row} (b : ℕ) (rest : List Row)
    (keys : List String) (cnt : ℕ) (hb : jsTrim (rowAddressText row) ≠ "")
    (hk : rowKey row ∉ keys) :
    processRows b (row :: rest) keys cnt =
      (createAddress row (b + cnt) :: (processRows b rest (rowKey row :: keys) (cnt + 1)).1,
       (processRows b rest (rowKey row :: keys) (cnt + 1)).2.1,
       (processRows b rest (rowKey row :: keys) (cnt + 1)).2.2) := by
  simp only [processRows]
  have hb2 : ¬jsTrim (getFieldValue row FieldMappings.address) = "" := hb
  have hk2 : ¬normalizeAddressKey (getFieldValue row FieldMappings.address) ∈ keys := hk
  rw [if_neg hb2, if_neg hk2]
  rfl

theorem processRows_keys_mono (b : ℕ) (rows : List Row) :
    ∀ (keys : List String) (cnt : ℕ) (k : String),
      k ∈ keys → k ∈ (processRows b rows keys cnt).2.2 := by
  induction rows with
  | nil => intro keys cnt k hk; simpa [processRows_nil] using hk
  | cons row rest ih =>
    intro keys cnt k hk
    by_cases hb : jsTrim (rowAddressText row) = ""
    · rw [processRows_cons_blank b rest keys cnt hb]; exact ih keys cnt k hk
    · by_cases hd : rowKey row ∈ keys
      · rw [processRows_cons_dup b rest keys cnt hb hd]; exact ih keys cnt k hk
      · rw [processRows_cons_new b rest keys cnt hb hd]
        exact ih _ _ k (List.mem_cons_of_mem _ hk)

theorem processRows_keys_sub (b : ℕ) (rows : List Row) :
    ∀ (keys : List String) (cnt : ℕ) (k : String),
      k ∈ (processRows b rows keys cnt).2.2 →
        k ∈ keys ∨ ∃ r ∈ rows, jsTrim (rowAddressText r) ≠ "" ∧ rowKey r = k := by
  induction rows with
  | nil => intro keys cnt k hk; simp [processRows_nil] at hk; exact Or.inl hk
  | cons row rest ih =>
    intro keys cnt k hk
    by_cases hb : jsTrim (rowAddressText row) = ""
    · rw [processRows_cons_blank b rest keys cnt hb] at hk
      rcases ih keys cnt k hk with h | ⟨r, hr, hnb, hkey⟩
      · exact Or.inl h
      · exact Or.inr ⟨r, List.mem_cons_of_mem _ hr, hnb, hkey⟩
    · by_cases hd : rowKey row ∈ keys
      · rw [processRows_cons_dup b rest keys cnt hb hd] at hk
        rcases ih keys cnt k hk with h | ⟨r, hr, hnb, hkey⟩
        · exact Or.inl h
        · exact Or.inr ⟨r, List.mem_cons_of_mem _ hr, hnb, hkey⟩
      · rw [processRows_cons_new b rest keys cnt hb hd] at hk
        rcases ih _ _ k hk with h | ⟨r, hr, hnb, hkey⟩
        · rcases List.mem_cons.mp h with h | h
          · exact Or.inr ⟨row, List.mem_cons_self _ _, hb, h.symm⟩
          · exact Or.inl h
        · exact Or.inr ⟨r, List.mem_cons_of_mem _ hr, hnb, hkey⟩

theorem processRows_keys_seen (b : ℕ) (rows : List Row) :
    ∀ (keys : List String) (cnt : ℕ) (r : Row),
      r ∈ rows → jsTrim (rowAddressText r) ≠ "" →
        rowKey r ∈ (processRows b rows keys cnt).2.2 := by
  induction rows with
  | nil => intro _ _ _ h; exact absurd h (List.not_mem_nil _)
  | cons row rest ih =>
    intro keys cnt r hr hnb
    rcases List.mem_cons.mp hr with rfl | hr
    · by_cases hd : rowKey r ∈ keys
      · rw [processRows_cons_dup b rest keys cnt hnb hd]
        exact processRows_keys_mono b rest keys cnt _ hd
      · rw [processRows_cons_new b rest keys cnt hnb hd]
        exact processRows_keys_mono b rest _ _ _ (List.mem_cons_self _ _)
    · by_cases hb : jsTrim (rowAddressText row) = ""
      · rw [processRows_cons_blank b rest keys cnt hb]; exact ih keys cnt r hr hnb
      · by_cases hd : rowKey row ∈ keys
        · rw [processRows_cons_dup b rest keys cnt hb hd]; exact ih keys cnt r hr hnb
        · rw [processRows_cons_new b rest keys cnt hb hd]; exact ih _ _ r hr hnb

theorem processRows_accepted_fresh (b : ℕ) (rows : List Row) :
    ∀ (keys : List String) (cnt : ℕ) (a : Address),
      a ∈ (processRows b rows keys cnt).1 → recordKey a ∉ keys := by
  induction rows with
  | nil => intro keys cnt a ha; simp [processRows_nil] at ha
  | cons row rest ih =>
    intro keys cnt a ha
    by_cases hb : jsTrim (rowAddressText row) = ""
    · rw [processRows_cons_blank b rest keys cnt hb] at ha; exact ih keys cnt a ha
    · by_cases hd : rowKey row ∈ keys
      · rw [processRows_cons_dup b rest keys cnt hb hd] at ha; exact ih keys cnt a ha
      · rw [processRows_cons_new b rest keys cnt hb hd] at ha
        rcases List.mem_cons.mp ha with rfl | ha
        · rw [recordKey_createAddress]; exact hd
        · intro hmem
          exact ih _ _ a ha (List.mem_cons_of_mem _ hmem)

theorem processRows_accepted_mem_out (b : ℕ) (rows : List Row) :
    ∀ (keys : List String) (cnt : ℕ) (a : Address),
      a ∈ (processRows b rows keys cnt).1 →
        recordKey a ∈ (processRows b rows keys cnt).2.2 := by
  induction rows with
  | nil => intro keys cnt a ha; simp [processRows_nil] at ha
  | cons row rest ih =>
    intro keys cnt a ha
    by_cases hb : jsTrim (rowAddressText row) = ""
    · rw [processRows_cons_blank b rest keys cnt hb] at ha ⊢; exact ih keys cnt a ha
    · by_cases hd : rowKey row ∈ keys
      · rw [processRows_cons_dup b rest keys cnt hb hd] at ha
        rw [processRows_cons_dup b rest keys cnt hb hd]
        exact ih keys cnt a ha
      · rw [processRows_cons_new b rest keys cnt hb hd] at ha
        rw [processRows_cons_new b rest keys cnt hb hd]
        rcases List.mem_cons.mp ha with rfl | ha
        · rw [recordKey_createAddress]
          exact processRows_keys_mono b rest _ _ _ (List.mem_cons_self _ _)
        · exact ih _ _ a ha

theorem processRows_accepted_pairwise (b : ℕ) (rows : List Row) :
    ∀ (keys : List String) (cnt : ℕ),
      (processRows b rows keys cnt).1.Pairwise
        (fun x y => recordKey x ≠ recordKey y) := by
  induction rows with
  | nil => intro keys cnt; simp [processRows_nil]
  | cons row rest ih =>
    intro keys cnt
    by_cases hb : jsTrim (rowAddressText row) = ""
    · rw [processRows_cons_blank b rest keys cnt hb]; exact ih keys cnt
    · by_cases hd : rowKey row ∈ keys
      · rw [processRows_cons_dup b rest keys cnt hb hd]; exact ih keys cnt
      · rw [processRows_cons_new b rest keys cnt hb hd]
        refine List.pairwise_cons.mpr ⟨?_, ih _ _⟩
        intro a ha
        rw [recordKey_createAddress]
        intro hco
        exact processRows_accepted_fresh b rest _ _ a ha (hco ▸ List.mem_cons_self _ _)

theorem processRows_count (b : ℕ) (rows : List Row) :
    ∀ (keys : List String) (cnt : ℕ),
      (processRows b rows keys cnt).1.length + (processRows b rows keys cnt).2.1 =
        (rows.filter (fun r => decide (jsTrim (rowAddressText r) ≠ ""))).length := by
  induction rows with
  | nil => intro keys cnt; simp [processRows_nil]
  | cons row rest ih =>
    intro keys cnt
    by_cases hb : jsTrim (rowAddressText row) = ""
    · rw [processRows_cons_blank b rest keys cnt hb]
      rw [List.filter_cons_of_neg (by simpa using hb)]
      exact ih keys cnt
    · by_cases hd : rowKey row ∈ keys
      · rw [processRows_cons_dup b rest keys cnt hb hd]
        rw [List.filter_cons_of_pos (by simpa using hb)]
        simp only [List.length_cons]
        have h := ih keys cnt
        omega
      · rw [processRows_cons_new b rest keys cnt hb hd]
        rw [List.filter_cons_of_pos (by simpa using hb)]
        simp only [List.length_cons]
        have h := ih (rowKey row :: keys) (cnt + 1)
        omega

theorem processRows_ids (b : ℕ) (rows : List Row) :
    ∀ (keys : List String) (cnt : ℕ),
      (processRows b rows keys cnt).1.map (fun a => a.id) =
        List.range' (b + cnt) (processRows b rows keys cnt).1.length := by
  induction rows with
  | nil => intro keys cnt; simp [processRows_nil]
  | cons row rest ih =>
    intro keys cnt
    by_cases hb : jsTrim (rowAddressText row) = ""
    · rw [processRows_cons_blank b rest keys cnt hb]; exact ih keys cnt
    · by_cases hd : rowKey row ∈ keys
      · rw [processRows_cons_dup b rest keys cnt hb hd]; exact ih keys cnt
      · rw [processRows_cons_new b rest keys cnt hb hd]
        simp only [List.map_cons, List.length_cons, createAddress_id]
        rw [List.range'_succ, ih _ (cnt + 1), Nat.add_assoc]

theorem processRows_first_accept (b : ℕ) (pre : List Row) :
    ∀ (r : Row) (post : List Row) (keys : List String) (cnt : ℕ),
      jsTrim (rowAddressText r) ≠ "" → rowKey r ∉ keys →
      (∀ p ∈ pre, jsTrim (rowAddressText p) ≠ "" → rowKey p ≠ rowKey r) →
      ∃ a ∈ (processRows b (pre ++ r :: post) keys cnt).1,
        a.address = rowAddressText r := by
  induction pre with
  | nil =>
    intro r post keys cnt hnb hk _
    rw [List.nil_append, processRows_cons_new b post keys cnt hnb hk]
    exact ⟨createAddress r (b + cnt), List.mem_cons_self _ _, createAddress_address r _⟩
  | cons p pre ih =>
    intro r post keys cnt hnb hk hpre
    rw [List.cons_append]
    by_cases hb : jsTrim (rowAddressText p) = ""
    · rw [processRows_cons_blank b _ keys cnt hb]
      exact ih r post keys cnt hnb hk (fun q hq => hpre q (List.mem_cons_of_mem _ hq))
    · by_cases hd : rowKey p ∈ keys
      · rw [processRows_cons_dup b _ keys cnt hb hd]
        exact ih r post keys cnt hnb hk (fun q hq => hpre q (List.mem_cons_of_mem _ hq))
      · rw [processRows_cons_new b _ keys cnt hb hd]
        have hne : rowKey r ∉ (rowKey p :: keys) := by
          intro hmem
          rcases List.mem_cons.mp hmem with h | h
          · exact hpre p (List.mem_cons_self _ _) hb h.symm
          · exact hk h
        obtain ⟨a, ha, haddr⟩ :=
          ih r post (rowKey p :: keys) (cnt + 1) hnb hne
            (fun q hq => hpre q (List.mem_cons_of_mem _ hq))
        exact ⟨a, List.mem_cons_of_mem _ ha, haddr⟩

/-! ### Structural lemmas about the file fold -/

theorem processFiles_nil (base fidx : ℕ) (keys : List String) :
    processFiles base [] fidx keys = .ok ([], 0, 0, keys) := rfl

theorem processFiles_decodeError (base fidx : ℕ) (keys : List String) (msg : String)
    (rest : List FileContent) :
    processFiles base (.decodeError msg :: rest) fidx keys =
      .error ("Failed to process Excel files: " ++ msg) := rfl

theorem processFiles_noWorksheet (base fidx : ℕ) (keys : List String)
    (rest : List FileContent) :
    processFiles base (.noWorksheet :: rest) fidx keys =
      processFiles base rest (fidx + 1) keys := rfl

theorem processFiles_sheet_ok (base fidx : ℕ) (keys : List String) (rows : List Row)
    (rest : List FileContent) (w : List Address × ℕ × ℕ × List String)
    (h : processFiles base rest (fidx + 1)
          (processRows (base + fidx * 1000000) rows keys 0).2.2 = .ok w) :
    processFiles base (.sheet rows :: rest) fidx keys =
      .ok ((processRows (base + fidx * 1000000) rows keys 0).1 ++ w.1,
           rows.length + w.2.1,
           (processRows (base + fidx * 1000000) rows keys 0).2.1 + w.2.2.1,
           w.2.2.2) := by
  simp only [processFiles, h]

theorem processFiles_sheet_error (base fidx : ℕ) (keys : List String) (rows : List Row)
    (rest : List FileContent) (e : String)
    (h : processFiles base rest (fidx + 1)
          (processRows (base + fidx * 1000000) rows keys 0).2.2 = .error e) :
    processFiles base (.sheet rows :: rest) fidx keys = .error e := by
  simp only [processFiles, h]

theorem processFiles_error_of_decode (base : ℕ) (files : List FileContent) :
    ∀ (fidx : ℕ) (keys : List String) (msg : String),
      FileContent.decodeError msg ∈ files →
        ∃ m, processFiles base files fidx keys =
          .error ("Failed to process Excel files: " ++ m) := by
  induction files with
  | nil => intro _ _ _ h; exact absurd h (List.not_mem_nil _)
  | cons f rest ih =>
    intro fidx keys msg hmem
    cases f with
    | decodeError m => exact ⟨m, processFiles_decodeError base fidx keys m rest⟩
    | noWorksheet =>
      rcases List.mem_cons.mp hmem with h | h
      · exact absurd h (by simp)
      · rw [processFiles_noWorksheet]
        exact ih (fidx + 1) keys msg h
    | sheet rows =>
      rcases List.mem_cons.mp hmem with h | h
      · exact absurd h (by simp)
      · obtain ⟨m, hm⟩ := ih (fidx + 1)
          (processRows (base + fidx * 1000000) rows keys 0).2.2 msg h
        exact ⟨m, processFiles_sheet_error base fidx keys rows rest _ hm⟩

theorem processFiles_ok_of_no_decode (base : ℕ) (files : List FileContent) :
    ∀ (fidx : ℕ) (keys : List String),
      (∀ msg, FileContent.decodeError msg ∉ files) →
        ∃ v, processFiles base files fidx keys = .ok v := by
  induction files with
  | nil => intro fidx keys _; exact ⟨_, processFiles_nil base fidx keys⟩
  | cons f rest ih =>
    intro fidx keys hno
    cases f with
    | decodeError m => exact absurd (List.mem_cons_self _ _) (hno m)
    | noWorksheet =>
      rw [processFiles_noWorksheet]
      exact ih (fidx + 1) keys (fun msg h => hno msg (List.mem_cons_of_mem _ h))
    | sheet rows =>
      obtain ⟨w, hw⟩ := ih (fidx + 1)
        (processRows (base + fidx * 1000000) rows keys 0).2.2
        (fun msg h => hno msg (List.mem_cons_of_mem _ h))
      exact ⟨_, processFiles_sheet_ok base fidx keys rows rest w hw⟩

theorem processFiles_keys_mono (base : ℕ) (files : List FileContent) :
    ∀ (fidx : ℕ) (keys : List String) (v : List Address × ℕ × ℕ × List String)
      (k : String),
      processFiles base files fidx keys = .ok v → k ∈ keys → k ∈ v.2.2.2 := by
  induction files with
  | nil =>
    intro fidx keys v k h hk
    rw [processFiles_nil] at h
    cases h
    exact hk
  | cons f rest ih =>
    intro fidx keys v k h hk
    cases f with
    | decodeError m => rw [processFiles_decodeError] at h; cases h
    | noWorksheet =>
      rw [processFiles_noWorksheet] at h
      exact ih (fidx + 1) keys v k h hk
    | sheet rows =>
      cases hrest : processFiles base rest (fidx + 1)
          (processRows (base + fidx * 1000000) rows keys 0).2.2 with
      | error e => rw [processFiles_sheet_error base fidx keys rows rest e hrest] at h; cases h
      | ok w =>
        rw [processFiles_sheet_ok base fidx keys rows rest w hrest] at h
        cases h
        exact ih (fidx + 1) _ w k hrest
          (processRows_keys_mono (base + fidx * 1000000) rows keys 0 k hk)

theorem processFiles_keys_sub (base : ℕ) (files : List FileContent) :
    ∀ (fidx : ℕ) (keys : List String) (v : List Address × ℕ × ℕ × List String)
      (k : String),
      processFiles base files fidx keys = .ok v → k ∈ v.2.2.2 →
        k ∈ keys ∨ ∃ r ∈ (files.map sheetRows).flatten,
          jsTrim (rowAddressText r) ≠ "" ∧ rowKey r = k := by
  induction files with
  | nil =>
    intro fidx keys v k h hk
    rw [processFiles_nil] at h
    cases h
    exact Or.inl hk
  | cons f rest ih =>
    intro fidx keys v k h hk
    cases f with
    | decodeError m => rw [processFiles_decodeError] at h; cases h
    | noWorksheet =>
      rw [processFiles_noWorksheet] at h
      rcases ih (fidx + 1) keys v k h hk with hin | ⟨r, hr, hnb, hkey⟩
      · exact Or.inl hin
      · exact Or.inr ⟨r, by simpa [sheetRows] using hr, hnb, hkey⟩
    | sheet rows =>
      cases hrest : processFiles base rest (fidx + 1)
          (processRows (base + fidx * 1000000) rows keys 0).2.2 with
      | error e => rw [processFiles_sheet_error base fidx keys rows rest e hrest] at h; cases h
      | ok w =>
        rw [processFiles_sheet_ok base fidx keys rows rest w hrest] at h
        cases h
        rcases ih (fidx + 1) _ w k hrest hk with hin | ⟨r, hr, hnb, hkey⟩
        · rcases processRows_keys_sub (base + fidx * 1000000) rows keys 0 k hin with
            hin2 | ⟨r, hr, hnb, hkey⟩
          · exact Or.inl hin2
          · exact Or.inr ⟨r, by simp [sheetRows, hr], hnb, hkey⟩
        · exact Or.inr ⟨r, by simpa [sheetRows] using Or.inr hr, hnb, hkey⟩

theorem processFiles_accepted (base : ℕ) (files : List FileContent) :
    ∀ (fidx : ℕ) (keys : List String) (v : List Address × ℕ × ℕ × List String),
      processFiles base files fidx keys = .ok v →
        v.1.Pairwise (fun x y => recordKey x ≠ recordKey y) ∧
        (∀ a ∈ v.1, recordKey a ∉ keys) ∧
        (∀ a ∈ v.1, recordKey a ∈ v.2.2.2) ∧
        v.1.length + v.2.2.1 =
          (((files.map sheetRows).flatten).filter
            (fun r => decide (jsTrim (rowAddressText r) ≠ ""))).length := by
  induction files with
  | nil =>
    intro fidx keys v h
    rw [processFiles_nil] at h
    cases h
    exact ⟨List.Pairwise.nil, by simp, by simp, by simp⟩
  | cons f rest ih =>
    intro fidx keys v h
    cases f with
    | decodeError m => rw [processFiles_decodeError] at h; cases h
    | noWorksheet =>
      rw [processFiles_noWorksheet] at h
      obtain ⟨h1, h2, h3, h4⟩ := ih (fidx + 1) keys v h
      exact ⟨h1, h2, h3, by simpa [sheetRows] using h4⟩
    | sheet rows =>
      cases hrest : processFiles base rest (fidx + 1)
          (processRows (base + fidx * 1000000) rows keys 0).2.2 with
      | error e => rw [processFiles_sheet_error base fidx keys rows rest e hrest] at h; cases h
      | ok w =>
        rw [processFiles_sheet_ok base fidx keys rows rest w hrest] at h
        cases h
        obtain ⟨h1, h2, h3, h4⟩ := ih (fidx + 1) _ w hrest
        refine ⟨?_, ?_, ?_, ?_⟩
        · rw [List.pairwise_append]
          refine ⟨processRows_accepted_pairwise _ rows keys 0, h1, ?_⟩
          intro a ha b hb hco
          exact h2 b hb (hco ▸
            processRows_accepted_mem_out (base + fidx * 1000000) rows keys 0 a ha)
        · intro a ha
          rcases List.mem_append.mp ha with ha | ha
          · exact processRows_accepted_fresh (base + fidx * 1000000) rows keys 0 a ha
          · intro hk
            exact h2 a ha
              (processRows_keys_mono (base + fidx * 1000000) rows keys 0 _ hk)
        · intro a ha
          rcases List.mem_append.mp ha with ha | ha
          · exact processFiles_keys_mono base rest (fidx + 1) _ w _ hrest
              (processRows_accepted_mem_out (base + fidx * 1000000) rows keys 0 a ha)
          · exact h3 a ha
        · have h5 := processRows_count (base + fidx * 1000000) rows keys 0
          simp only [List.map_cons, List.flatten_cons, sheetRows, List.filter_append,
            List.length_append, List.length_append]
          omega

theorem processFiles_ids (base : ℕ) (files : List FileContent) :
    ∀ (fidx : ℕ) (keys : List String) (v : List Address × ℕ × ℕ × List String),
      processFiles base files fidx keys = .ok v → v.1.length ≤ 1000000 →
        (v.1.map (fun a => a.id)).Nodup ∧
        ∀ a ∈ v.1, base + fidx * 1000000 ≤ a.id := by
  induction files with
  | nil =>
    intro fidx keys v h _
    rw [processFiles_nil] at h
    cases h
    exact ⟨List.Pairwise.nil, by simp⟩
  | cons f rest ih =>
    intro fidx keys v h hlen
    cases f with
    | decodeError m => rw [processFiles_decodeError] at h; cases h
    | noWorksheet =>
      rw [processFiles_noWorksheet] at h
      obtain ⟨h1, h2⟩ := ih (fidx + 1) keys v h hlen
      refine ⟨h1, fun a ha => ?_⟩
      have := h2 a ha
      nlinarith [this]
    | sheet rows =>
      cases hrest : processFiles base rest (fidx + 1)
          (processRows (base + fidx * 1000000) rows keys 0).2.2 with
      | error e => rw [processFiles_sheet_error base fidx keys rows rest e hrest] at h; cases h
      | ok w =>
        rw [processFiles_sheet_ok base fidx keys rows rest w hrest] at h
        cases h
        simp only [List.length_append] at hlen
        obtain ⟨h1, h2⟩ := ih (fidx + 1) _ w hrest (by omega)
        have hids := processRows_ids (base + fidx * 1000000) rows keys 0
        have hlow : ∀ a ∈ (processRows (base + fidx * 1000000) rows keys 0).1,
            base + fidx * 1000000 ≤ a.id ∧
              a.id < base + fidx * 1000000 +
                (processRows (base + fidx * 1000000) rows keys 0).1.length := by
          intro a ha
          have : a.id ∈ (processRows (base + fidx * 1000000) rows keys 0).1.map
              (fun a => a.id) := List.mem_map_of_mem _ ha
          rw [hids] at this
          have := List.mem_range'_1.mp (by simpa using this)
          omega
        refine ⟨?_, ?_⟩
        · rw [List.map_append, List.nodup_append]
          refine ⟨?_, h1, ?_⟩
          · rw [hids]
            simpa using List.nodup_range' _ _
          · intro x hx hy
            rcases List.mem_map.mp hx with ⟨a, ha, rfl⟩
            rcases List.mem_map.mp hy with ⟨c, hc, hca⟩
            have hxa := (hlow a ha).2
            have hyc := h2 c hc
            have hmul : fidx * 1000000 + 1000000 = (fidx + 1) * 1000000 := by ring
            omega
        · intro a ha
          rcases List.mem_append.mp ha with ha | ha
          · exact (hlow a ha).1
          · have := h2 a ha
            nlinarith

theorem processFiles_first_accept (base : ℕ) (preF : List FileContent) :
    ∀ (preR : List Row) (r : Row) (postR : List Row) (postF : List FileContent)
      (fidx : ℕ) (keys : List String) (v : List Address × ℕ × ℕ × List String),
      processFiles base (preF ++ .sheet (preR ++ r :: postR) :: postF) fidx keys = .ok v →
      jsTrim (rowAddressText r) ≠ "" →
      rowKey r ∉ keys →
      (∀ p ∈ (preF.map sheetRows).flatten ++ preR,
        jsTrim (rowAddressText p) ≠ "" → rowKey p ≠ rowKey r) →
      ∃ a ∈ v.1, a.address = rowAddressText r := by
  induction preF with
  | nil =>
    intro preR r postR postF fidx keys v h hnb hk hpre
    rw [List.nil_append] at h
    cases hrest : processFiles base postF (fidx + 1)
        (processRows (base + fidx * 1000000) (preR ++ r :: postR) keys 0).2.2 with
    | error e =>
      rw [processFiles_sheet_error base fidx keys _ postF e hrest] at h; cases h
    | ok w =>
      rw [processFiles_sheet_ok base fidx keys _ postF w hrest] at h
      cases h
      obtain ⟨a, ha, haddr⟩ :=
        processRows_first_accept (base + fidx * 1000000) preR r postR keys 0 hnb hk
          (fun p hp => hpre p (by simpa using hp))
      exact ⟨a, List.mem_append.mpr (Or.inl ha), haddr⟩
  | cons f preF ih =>
    intro preR r postR postF fidx keys v h hnb hk hpre
    rw [List.cons_append] at h
    cases f with
    | decodeError m => rw [processFiles_decodeError] at h; cases h
    | noWorksheet =>
      rw [processFiles_noWorksheet] at h
      exact ih preR r postR postF (fidx + 1) keys v h hnb hk
        (fun p hp => hpre p (by simpa [sheetRows] using hp))
    | sheet rows0 =>
      cases hrest : processFiles base (preF ++ .sheet (preR ++ r :: postR) :: postF)
          (fidx + 1) (processRows (base + fidx * 1000000) rows0 keys 0).2.2 with
      | error e =>
        rw [processFiles_sheet_error base fidx keys rows0 _ e hrest] at h; cases h
      | ok w =>
        rw [processFiles_sheet_ok base fidx keys rows0 _ w hrest] at h
        cases h
        have hk2 : rowKey r ∉ (processRows (base + fidx * 1000000) rows0 keys 0).2.2 := by
          intro hmem
          rcases processRows_keys_sub (base + fidx * 1000000) rows0 keys 0 _ hmem with
            hin | ⟨p, hp, hnbp, hkey⟩
          · exact hk hin
          · exact hpre p (by simp [sheetRows, hp]) hnbp hkey
        obtain ⟨a, ha, haddr⟩ :=
          ih preR r postR postF (fidx + 1) _ w hrest hnb hk2
            (fun p hp => hpre p (by
              rcases List.mem_append.mp hp with hp | hp
              · exact List.mem_append.mpr (Or.inl (by simpa [sheetRows] using Or.inr hp))
              · exact List.mem_append.mpr (Or.inr hp)))
        exact ⟨a, List.mem_append.mpr (Or.inr ha), haddr⟩

/-! ### Import-level results -/

theorem importExcelFiles_eq (base : ℕ) (files : List FileContent)
    (existing : List Address) :
    importExcelFiles base files existing =
      match processFiles base files 0 (existing.map existingKey) with
      | .error e => .error e
      | .ok (as, p, d, _) => .ok ⟨as, p, d⟩ := rfl

theorem importExcelFiles_ok_elim (base : ℕ) (files : List FileContent)
    (existing : List Address) (res : ImportResult)
    (h : importExcelFiles base files existing = .ok res) :
    ∃ ks, processFiles base files 0 (existing.map existingKey) =
      .ok (res.newAddresses, res.totalProcessed, res.duplicatesSkipped, ks) := by
  rw [importExcelFiles_eq] at h
  cases hp : processFiles base files 0 (existing.map existingKey) with
  | error e => rw [hp] at h; simp at h
  | ok v =>
    obtain ⟨as, p, d, ks⟩ := v
    rw [hp] at h
    simp only [Except.ok.injEq] at h
    subst h
    exact ⟨ks, rfl⟩

/-- C2: within one import call no two accepted records share a dedup key, no
accepted record's key collides with a key of the pre-existing collection,
every non-blank row is either accepted or counted in `duplicatesSkipped`
(their numbers sum to the non-blank row count), and the first non-blank row
carrying a fresh key — in file order, then row order, files being embedded in
the deterministic cooperative schedule — is accepted.  Together: only the
first row of each key group is accepted, later ones are counted as skipped
duplicates, and two records with the same normalized address text cannot both
enter the collection in one pass. -/
theorem c2_dedup (base : ℕ) (files : List FileContent) (existing : List Address)
    (res : ImportResult) (h : importExcelFiles base files existing = .ok res) :
    res.newAddresses.Pairwise (fun x y => recordKey x ≠ recordKey y) ∧
    (∀ a ∈ res.newAddresses, ∀ e ∈ existing, recordKey a ≠ existingKey e) ∧
    res.newAddresses.length + res.duplicatesSkipped =
      (((files.map sheetRows).flatten).filter
        (fun r => decide (jsTrim (rowAddressText r) ≠ ""))).length ∧
    (∀ (preF : List FileContent) (preR postR : List Row) (r : Row)
       (postF : List FileContent),
       files = preF ++ .sheet (preR ++ r :: postR) :: postF →
       jsTrim (rowAddressText r) ≠ "" →
       (∀ e ∈ existing, rowKey r ≠ existingKey e) →
       (∀ p ∈ (preF.map sheetRows).flatten ++ preR,
         jsTrim (rowAddressText p) ≠ "" → rowKey p ≠ rowKey r) →
       ∃ a ∈ res.newAddresses, a.address = rowAddressText r) := by
  obtain ⟨ks, hp⟩ := importExcelFiles_ok_elim base files existing res h
  obtain ⟨h1, h2, _h3, h4⟩ := processFiles_accepted base files 0 (existing.map existingKey)
    (res.newAddresses, res.totalProcessed, res.duplicatesSkipped, ks) hp
  refine ⟨h1, ?_, h4, ?_⟩
  · intro a ha e he hco
    exact h2 a ha (hco ▸ List.mem_map_of_mem existingKey he)
  · intro preF preR postR r postF hfiles hnb hfresh hfirst
    subst hfiles
    exact processFiles_first_accept base preF preR r postR postF 0
      (existing.map existingKey)
      (res.newAddresses, res.totalProcessed, res.duplicatesSkipped, ks) hp hnb
      (fun hmem => by
        obtain ⟨e, he, hkey⟩ := List.mem_map.mp hmem
        exact hfresh e he hkey.symm)
      hfirst

/-- C2 witness: a concrete import call — two rows differing only in case and
whitespace plus one fresh row — realizing the theorem's hypothesis. -/
theorem c2_dedup_witness :
    importExcelFiles 50 [.sheet [addrRow "Main St 5", addrRow "  main st 5"],
        .sheet [addrRow "Other 7"]] [] =
      .ok ((importExcelFiles 50 [.sheet [addrRow "Main St 5", addrRow "  main st 5"],
        .sheet [addrRow "Other 7"]] []).toOption.getD ⟨[], 0, 0⟩) ∧
    ((importExcelFiles 50 [.sheet [addrRow "Main St 5", addrRow "  main st 5"],
        .sheet [addrRow "Other 7"]] []).toOption.getD
        ⟨[], 0, 0⟩).newAddresses.Pairwise (fun x y => recordKey x ≠ recordKey y) :=
  ⟨by rfl,
   (c2_dedup 50 [.sheet [addrRow "Main St 5", addrRow "  main st 5"],
      .sheet [addrRow "Other 7"]] []
      ((importExcelFiles 50 [.sheet [addrRow "Main St 5", addrRow "  main st 5"],
        .sheet [addrRow "Other 7"]] []).toOption.getD ⟨[], 0, 0⟩) (by rfl)).1⟩

/-- C3: a codec decode failure on any file makes the whole import return the
single wrapping error (no records are returned and nothing is merged); a file
with no readable worksheet passes the fold state straight through —
contributing zero accepted records, zero processed rows and zero duplicates —
and an import whose files all decode (possibly with missing worksheets)
succeeds. -/
theorem c3_failure_semantics :
    (∀ (base : ℕ) (files : List FileContent) (existing : List Address) (msg : String),
       FileContent.decodeError msg ∈ files →
       ∃ m, importExcelFiles base files existing =
         .error ("Failed to process Excel files: " ++ m)) ∧
    (∀ (base fidx : ℕ) (keys : List String) (rest : List FileContent),
       processFiles base (.noWorksheet :: rest) fidx keys =
         processFiles base rest (fidx + 1) keys) ∧
    (∀ (base : ℕ) (files : List FileContent) (existing : List Address),
       (∀ msg, FileContent.decodeError msg ∉ files) →
       ∃ res, importExcelFiles base files existing = .ok res) := by
  refine ⟨?_, ?_, ?_⟩
  · intro base files existing msg hmem
    obtain ⟨m, hm⟩ := processFiles_error_of_decode base files 0
      (existing.map existingKey) msg hmem
    refine ⟨m, ?_⟩
    rw [importExcelFiles_eq, hm]
  · intro base fidx keys rest
    exact processFiles_noWorksheet base fidx keys rest
  · intro base files existing hno
    obtain ⟨v, hv⟩ := processFiles_ok_of_no_decode base files 0
      (existing.map existingKey) hno
    obtain ⟨as, p, d, ks⟩ := v
    refine ⟨⟨as, p, d⟩, ?_⟩
    rw [importExcelFiles_eq, hv]

/-- C3 witness: a decode failure rejects the call; a worksheet-less file next
to a decodable one leaves all counts to the decodable file alone. -/
theorem c3_failure_semantics_witness :
    (∃ m, importExcelFiles 0 [.sheet [addrRow "A"], .decodeError "bad zip"] [] =
      .error ("Failed to process Excel files: " ++ m)) ∧
    processFiles 0 [.noWorksheet, .sheet [addrRow "A"]] 0 [] =
      processFiles 0 [.sheet [addrRow "A"]] 1 [] ∧
    (∃ res, importExcelFiles 0 [.noWorksheet, .sheet [addrRow "A"]] [] = .ok res) :=
  ⟨c3_failure_semantics.1 0 [.sheet [addrRow "A"], .decodeError "bad zip"] []
      "bad zip" (by decide),
   c3_failure_semantics.2.1 0 0 [] [.sheet [addrRow "A"]],
   c3_failure_semantics.2.2 0 [.noWorksheet, .sheet [addrRow "A"]] []
      (fun msg hmem => by simp at hmem)⟩

/-- C4 counterexample: identifiers are not distinct across import calls in one
process lifetime.  A call at `Date.now() = 1000` accepting six records emits
ids 1000–1005; a later call at `Date.now() = 1005` (5 ms later) emits id 1005
again. -/
theorem c4_counterexample :
    (importExcelFiles 1000 [.sheet idClashRowsA] []).toOption.map
        (fun r => r.newAddresses.map (fun a => a.id)) =
      some [1000, 1001, 1002, 1003, 1004, 1005] ∧
    (importExcelFiles 1005 [.sheet idClashRowsB] []).toOption.map
        (fun r => r.newAddresses.map (fun a => a.id)) = some [1005] ∧
    (1005 : ℕ) ∈ [1000, 1001, 1002, 1003, 1004, 1005] := by decide

/-- C4 (amended): within one import call, as long as the call accepts at most
1,000,000 records (so no file's running counter can spill into the next
file's id block), the identifiers of the accepted records are pairwise
distinct.  Across calls, distinctness additionally requires the later call's
timestamp base to clear the earlier call's id ranges, which `Date.now()` does
not guarantee (see the counterexample). -/
theorem c4_amended (base : ℕ) (files : List FileContent) (existing : List Address)
    (res : ImportResult) (h : importExcelFiles base files existing = .ok res)
    (hlen : res.newAddresses.length ≤ 1000000) :
    (res.newAddresses.map (fun a => a.id)).Nodup := by
  obtain ⟨ks, hp⟩ := importExcelFiles_ok_elim base files existing res h
  exact (processFiles_ids base files 0 (existing.map existingKey)
    (res.newAddresses, res.totalProcessed, res.duplicatesSkipped, ks) hp hlen).1

/-- C4 witness: a concrete two-row import whose ids are distinct. -/
theorem c4_amended_witness :
    importExcelFiles 3 [.sheet [addrRow "W1", addrRow "W2"]] [] =
      .ok ((importExcelFiles 3 [.sheet [addrRow "W1", addrRow "W2"]] []).toOption.getD
        ⟨[], 0, 0⟩) ∧
    ((importExcelFiles 3 [.sheet [addrRow "W1", addrRow "W2"]] []).toOption.getD
        ⟨[], 0, 0⟩).newAddresses.length ≤ 1000000 ∧
    ((((importExcelFiles 3 [.sheet [addrRow "W1", addrRow "W2"]] []).toOption.getD
        ⟨[], 0, 0⟩).newAddresses.map (fun a => a.id)).Nodup) :=
  ⟨by rfl, by decide,
   c4_amended 3 [.sheet [addrRow "W1", addrRow "W2"]] []
     ((importExcelFiles 3 [.sheet [addrRow "W1", addrRow "W2"]] []).toOption.getD
       ⟨[], 0, 0⟩) (by rfl) (by decide)⟩

/-! ### C7 -/

theorem processRows_skip_blank (b : ℕ) {r : Row}
    (hb : jsTrim (rowAddressText r) = "") (preR : List Row) :
    ∀ (postR : List Row) (keys : List String) (cnt : ℕ),
      processRows b (preR ++ r :: postR) keys cnt =
        processRows b (preR ++ postR) keys cnt := by
  induction preR with
  | nil =>
    intro postR keys cnt
    rw [List.nil_append, List.nil_append, processRows_cons_blank b postR keys cnt hb]
  | cons p preR ih =>
    intro postR keys cnt
    rw [List.cons_append, List.cons_append]
    by_cases hpb : jsTrim (rowAddressText p) = ""
    · rw [processRows_cons_blank b _ keys cnt hpb,
        processRows_cons_blank b _ keys cnt hpb]
      exact ih postR keys cnt
    · by_cases hd : rowKey p ∈ keys
      · rw [processRows_cons_dup b _ keys cnt hpb hd,
          processRows_cons_dup b _ keys cnt hpb hd, ih postR keys cnt]
      · rw [processRows_cons_new b _ keys cnt hpb hd,
          processRows_cons_new b _ keys cnt hpb hd, ih postR _ (cnt + 1)]

theorem processFiles_skip_blank (base : ℕ) {r : Row}
    (hb : jsTrim (rowAddressText r) = "") (preF : List FileContent) :
    ∀ (preR postR : List Row) (postF : List FileContent) (fidx : ℕ)
      (keys : List String),
      processFiles base (preF ++ .sheet (preR ++ r :: postR) :: postF) fidx keys =
        Except.map (fun v => (v.1, v.2.1 + 1, v.2.2))
          (processFiles base (preF ++ .sheet (preR ++ postR) :: postF) fidx keys) := by
  induction preF with
  | nil =>
    intro preR postR postF fidx keys
    rw [List.nil_append, List.nil_append]
    have hrows := processRows_skip_blank (base + fidx * 1000000) hb preR postR keys 0
    cases hrest : processFiles base postF (fidx + 1)
        (processRows (base + fidx * 1000000) (preR ++ postR) keys 0).2.2 with
    | error e =>
      have hrest2 : processFiles base postF (fidx + 1)
          (processRows (base + fidx * 1000000) (preR ++ r :: postR) keys 0).2.2 =
            .error e := by rw [hrows]; exact hrest
      rw [processFiles_sheet_error base fidx keys _ postF e hrest2,
        processFiles_sheet_error base fidx keys _ postF e hrest]
      rfl
    | ok w =>
      have hrest2 : processFiles base postF (fidx + 1)
          (processRows (base + fidx * 1000000) (preR ++ r :: postR) keys 0).2.2 =
            .ok w := by rw [hrows]; exact hrest
      rw [processFiles_sheet_ok base fidx keys _ postF w hrest2,
        processFiles_sheet_ok base fidx keys _ postF w hrest]
      rw [hrows]
      simp only [Except.map, List.length_append, List.length_cons]
      congr 1
      simp only [Prod.mk.injEq, true_and, and_true]
      omega
  | cons f preF ih =>
    intro preR postR postF fidx keys
    rw [List.cons_append, List.cons_append]
    cases f with
    | decodeError m =>
      rw [processFiles_decodeError, processFiles_decodeError]
      rfl
    | noWorksheet =>
      rw [processFiles_noWorksheet, processFiles_noWorksheet]
      exact ih preR postR postF (fidx + 1) keys
    | sheet rows0 =>
      have hih := ih preR postR postF (fidx + 1)
        (processRows (base + fidx * 1000000) rows0 keys 0).2.2
      cases hrest : processFiles base (preF ++ .sheet (preR ++ postR) :: postF)
          (fidx + 1) (processRows (base + fidx * 1000000) rows0 keys 0).2.2 with
      | error e =>
        rw [hrest] at hih
        rw [processFiles_sheet_error base fidx keys rows0 _ e hrest,
          processFiles_sheet_error base fidx keys rows0 _ e hih]
        rfl
      | ok w =>
        rw [hrest] at hih
        rw [processFiles_sheet_ok base fidx keys rows0 _ w hrest]
        have hih2 : processFiles base (preF ++ .sheet (preR ++ r :: postR) :: postF)
            (fidx + 1) (processRows (base + fidx * 1000000) rows0 keys 0).2.2 =
            .ok (w.1, w.2.1 + 1, w.2.2) := hih
        rw [processFiles_sheet_ok base fidx keys rows0 _ _ hih2]
        rfl

/-- C7: inserting a row whose address text is blank after field mapping
anywhere into any file of an import call leaves the accepted records and the
duplicate counter untouched and only increments the processed-row total. -/
theorem c7_blank_rows (base : ℕ) (preF postF : List FileContent)
    (preR postR : List Row) (r : Row) (existing : List Address)
    (hb : jsTrim (rowAddressText r) = "") :
    importExcelFiles base (preF ++ .sheet (preR ++ r :: postR) :: postF) existing =
      Except.map (fun res => { res with totalProcessed := res.totalProcessed + 1 })
        (importExcelFiles base (preF ++ .sheet (preR ++ postR) :: postF) existing) := by
  rw [importExcelFiles_eq, importExcelFiles_eq,
    processFiles_skip_blank base hb preF preR postR postF 0 (existing.map existingKey)]
  cases processFiles base (preF ++ .sheet (preR ++ postR) :: postF) 0
      (existing.map existingKey) with
  | error e => rfl
  | ok v => rfl

/-- C7 witness: a whitespace-only row between two accepted rows bumps only the
processed total. -/
theorem c7_blank_rows_witness :
    jsTrim (rowAddressText (addrRow "   ")) = "" ∧
    importExcelFiles 9 [.sheet [addrRow "B1", addrRow "   ", addrRow "B2"]] [] =
      Except.map (fun res => { res with totalProcessed := res.totalProcessed + 1 })
        (importExcelFiles 9 [.sheet [addrRow "B1", addrRow "B2"]] []) :=
  ⟨by decide,
   c7_blank_rows 9 [] [] [addrRow "B1"] [addrRow "B2"] (addrRow "   ") [] (by decide)⟩

/-! ### C1: the export/import round trip -/

theorem getFieldValue_nil (row : Row) : getFieldValue row [] = "" := rfl

theorem getFieldValue_cons_vStr_good (row : Row) (k : String) (rest : List String)
    (s : String) (h : jsGet row k = .vStr s) (hs : jsTrim s ≠ "") :
    getFieldValue row (k :: rest) = s := by
  show (if isNullish (jsGet row k) = false ∧ jsTrim (cellToString (jsGet row k)) ≠ ""
        then cellToString (jsGet row k) else getFieldValue row rest) = s
  rw [h]
  exact if_pos ⟨rfl, hs⟩

theorem getFieldValue_cons_vStr_empty (row : Row) (k : String) (rest : List String)
    (h : jsGet row k = .vStr "") :
    getFieldValue row (k :: rest) = getFieldValue row rest := by
  show (if isNullish (jsGet row k) = false ∧ jsTrim (cellToString (jsGet row k)) ≠ ""
        then cellToString (jsGet row k) else getFieldValue row rest) = _
  rw [h]
  exact if_neg (fun hc => hc.2 rfl)

theorem getFieldValue_cons_undef (row : Row) (k : String) (rest : List String)
    (h : jsGet row k = .vUndefined) :
    getFieldValue row (k :: rest) = getFieldValue row rest := by
  show (if isNullish (jsGet row k) = false ∧ jsTrim (cellToString (jsGet row k)) ≠ ""
        then cellToString (jsGet row k) else getFieldValue row rest) = _
  rw [h]
  exact if_neg (fun hc => by cases hc.1)

/-- A required text field written as `s || ''` by the export writer re-imports
to `s` itself whenever `s` is empty or non-blank. -/
theorem reqField_roundtrip (row : Row) (k1 : String) (rest : List String)
    (s : String) (h1 : jsGet row k1 = .vStr (strOr s ""))
    (hrest : getFieldValue row rest = "") (hs : GoodText s) :
    getFieldValue row (k1 :: rest) = s := by
  rcases hs with rfl | hs
  · rw [getFieldValue_cons_vStr_empty row k1 rest (h1 : jsGet row k1 = .vStr "")]
    exact hrest
  · exact getFieldValue_cons_vStr_good row k1 rest s
      (h1.trans (congrArg CellValue.vStr (strOr_empty s))) hs

/-- An optional text field written as `x || ''` by the export writer
re-imports to `x` whenever `x` is present and empty-or-non-blank. -/
theorem optField_roundtrip (row : Row) (k1 : String) (rest : List String)
    (x : Option String) (h1 : jsGet row k1 = .vStr (optStrOr x ""))
    (hrest : getFieldValue row rest = "") (hx : GoodOptText x) :
    some (getFieldValue row (k1 :: rest)) = x := by
  cases x with
  | none => exact (hx : False).elim
  | some s =>
    rw [reqField_roundtrip row k1 rest s h1 hrest (hx : GoodText s)]

theorem rowAddressText_exportRow (a : Address) (haddr : jsTrim a.address ≠ "") :
    rowAddressText (exportRow a) = a.address :=
  reqField_roundtrip (exportRow a) "Adresse" ["Address"] a.address rfl rfl
    (Or.inr haddr)

theorem rowKey_exportRow (a : Address) (haddr : jsTrim a.address ≠ "") :
    rowKey (exportRow a) = recordKey a :=
  congrArg normalizeAddressKey (rowAddressText_exportRow a haddr)

/-- Re-importing the exported row of a round-trippable record rebuilds the
record itself, except for the freshly assigned identifier, the provenance
flag, and the four customer-tracking flags the canonical column layout does
not carry. -/
theorem createAddress_exportRow (a : Address) (i : ℕ) (h : RoundTrippable a) :
    createAddress (exportRow a) i = scrubForReimport a i := by
  obtain ⟨haddr, hcode, hreg, hnotes, hano, hstat, hprov, hbuild, hkg, hplan,
    hd2s, hd2e, hout, hhomes, hcontract, hdone⟩ := h
  apply Address.ext
  · rfl
  · exact reqField_roundtrip (exportRow a) "adrcd-subcd" ["ID"] a.addressCode rfl rfl hcode
  · exact reqField_roundtrip (exportRow a) "Adresse" ["Address"] a.address rfl rfl
      (Or.inr haddr)
  · exact reqField_roundtrip (exportRow a) "Region" [] a.region rfl rfl hreg
  · exact optField_roundtrip (exportRow a) "ANO" ["Provider"] a.ano rfl rfl hano
  · exact optField_roundtrip (exportRow a) "Status" [] a.status rfl rfl hstat
  · exact jsTruncQ_den_one hhomes
  · exact jsTruncQ_den_one hcontract
  · rfl
  · exact optField_roundtrip (exportRow a) "Provisions-Kategorie" []
      a.provisionCategory rfl rfl hprov
  · exact optField_roundtrip (exportRow a) "Baufirma" [] a.buildingCompany rfl rfl hbuild
  · exact optField_roundtrip (exportRow a) "KG Nummer" [] a.kgNumber rfl rfl hkg
  · exact optField_roundtrip (exportRow a) "Fertigstellung Bau (aktueller Plan)" []
      a.completionPlanned rfl rfl hplan
  · obtain ⟨b, hb⟩ := Option.isSome_iff_exists.mp hdone
    show some (safeParseBoolean
        (.vStr (if optBoolTruthy a.completionDone then "Yes" else ""))) = a.completionDone
    rw [hb]
    cases b <;> rfl
  · exact optField_roundtrip (exportRow a) "D2D-Vertrieb Start" [] a.d2dStart rfl rfl hd2s
  · exact optField_roundtrip (exportRow a) "D2D-Vertrieb Ende" [] a.d2dEnd rfl rfl hd2e
  · exact optField_roundtrip (exportRow a) "Outdoor-Pauschale vorhanden" []
      a.outdoorFee rfl rfl hout
  · exact reqField_roundtrip (exportRow a) "Notes" [] a.notes rfl rfl hnotes
  · rfl
  · rfl
  · rfl
  · rfl
  · rfl

theorem processRows_export (idBase : ℕ) (addrs : List Address) :
    ∀ (keys : List String) (cnt : ℕ),
      (∀ a ∈ addrs, RoundTrippable a) →
      addrs.Pairwise (fun x y => recordKey x ≠ recordKey y) →
      (∀ a ∈ addrs, recordKey a ∉ keys) →
      processRows idBase (addrs.map exportRow) keys cnt =
        (reimported idBase cnt addrs, 0, (addrs.map recordKey).reverse ++ keys) := by
  induction addrs with
  | nil => intro keys cnt _ _ _; simp [processRows_nil, reimported]
  | cons a addrs ih =>
    intro keys cnt hgood hpw hfresh
    have hrt := hgood a (List.mem_cons_self _ _)
    have haddr : jsTrim a.address ≠ "" := hrt.1
    have htext := rowAddressText_exportRow a haddr
    have hkey := rowKey_exportRow a haddr
    rw [List.map_cons]
    rw [processRows_cons_new idBase _ keys cnt
      (by rw [htext]; exact haddr)
      (by rw [hkey]; exact hfresh a (List.mem_cons_self _ _))]
    rw [hkey]
    rw [ih (recordKey a :: keys) (cnt + 1)
      (fun x hx => hgood x (List.mem_cons_of_mem _ hx))
      (List.Pairwise.of_cons hpw)
      (fun x hx => by
        intro hmem
        rcases List.mem_cons.mp hmem with h | h
        · exact (List.rel_of_pairwise_cons hpw hx) h.symm
        · exact hfresh x (List.mem_cons_of_mem _ hx) h)]
    rw [createAddress_exportRow a (idBase + cnt) hrt]
    show (scrubForReimport a (idBase + cnt) :: reimported idBase (cnt + 1) addrs, 0,
        (addrs.map recordKey).reverse ++ (recordKey a :: keys)) = _
    rw [show reimported idBase cnt (a :: addrs) =
      scrubForReimport a (idBase + cnt) :: reimported idBase (cnt + 1) addrs from rfl]
    simp [List.reverse_cons, List.append_assoc]

/-- C1 counterexample: the round trip does not restore the customer-tracking
fields.  `rtCtrRecord` has every address text unique after normalization (it
is a singleton collection) yet `customerMet = some true` comes back unset
after export-then-import, although `customerMet` is neither the identifier
nor the provenance flag. -/
theorem c1_counterexample :
    (importExcelFiles 100
        [.sheet ((exportCSVWeb [rtCtrRecord]).toOption.getD [])] []).toOption.map
        (fun r => r.newAddresses.map (fun a => a.customerMet)) = some [none] ∧
    rtCtrRecord.customerMet = some true := by decide

/-- C1 (amended): for a non-empty collection of records whose dedup keys are
pairwise distinct, whose address texts are non-blank, whose text fields are
empty or non-blank, whose optional text fields are present, whose `homes` and
`contractStatus` are integral and whose completion flag is present, exporting
and re-importing against an empty collection reproduces every record's field
values except the identifier (freshly assigned from the import call's
timestamp base), the provenance flag (set true), and the four
customer-tracking flags (absent from the canonical column layout, hence
unset after re-import); nothing is dropped or counted as duplicate. -/
theorem c1_amended (base : ℕ) (addrs : List Address)
    (hne : addrs ≠ [])
    (hgood : ∀ a ∈ addrs, RoundTrippable a)
    (hpw : addrs.Pairwise (fun x y => recordKey x ≠ recordKey y)) :
    exportCSVWeb addrs = .ok (addrs.map exportRow) ∧
    importExcelFiles base [.sheet (addrs.map exportRow)] [] =
      .ok ⟨reimported base 0 addrs, addrs.length, 0⟩ := by
  constructor
  · unfold exportCSVWeb
    rw [if_neg (by simpa using hne)]
  · have h0 : base + 0 * 1000000 = base := by simp
    have hp := processRows_export base addrs [] 0 hgood hpw (by simp)
    have hfold : processFiles base [.sheet (addrs.map exportRow)] 0 [] =
        .ok (reimported base 0 addrs, addrs.length, 0, (addrs.map recordKey).reverse) := by
      rw [processFiles_sheet_ok base 0 [] (addrs.map exportRow) []
        ([], 0, 0, (processRows (base + 0 * 1000000) (addrs.map exportRow) [] 0).2.2)
        (processFiles_nil base 1 _)]
      rw [h0, hp]
      simp
    rw [importExcelFiles_eq]
    rw [show (([] : List Address).map existingKey) = ([] : List String) from rfl]
    rw [hfold]

/-- C1 witness: the amended round trip at a concrete singleton collection. -/
theorem c1_amended_witness :
    ([rtCtrRecord] ≠ []) ∧
    (∀ a ∈ [rtCtrRecord], RoundTrippable a) ∧
    ([rtCtrRecord].Pairwise (fun x y => recordKey x ≠ recordKey y)) ∧
    importExcelFiles 100 [.sheet ([rtCtrRecord].map exportRow)] [] =
      .ok ⟨reimported 100 0 [rtCtrRecord], 1, 0⟩ :=
  ⟨by decide, by decide, List.pairwise_singleton _ _,
   (c1_amended 100 [rtCtrRecord] (by decide) (by decide)
     (List.pairwise_singleton _ _)).2⟩
